import Mathlib

/-!
Verification development for queuectl, a CLI-based background job queue.

Shallow embedding of the repository's core:
  * `job.py`      — the `Job` entity, `to_dict` / `from_dict` / `row_to_job`;
  * `storage.py`  — the SQLite-backed store, modelled as a list of rows in
    rowid (insertion) order: `enqueue_job`, `pick_job_for_worker`,
    `update_job_state`, `get_job_by_id`;
  * `worker.py`   — `handle_success`, `handle_failure`, `process_job`;
  * `cli.py`      — the administrative `dlq retry` command (`dlq_retry` here).

Timestamps are ISO-8601 UTC strings in the source; since every use of them is
an order comparison (SQLite TEXT comparison, which agrees with chronological
order for same-format UTC isoformat strings), they are modelled as `Nat`.
The job `state` column is a TEXT column holding one of the four strings
pending / processing / completed / dead; it is modelled as the inductive
`JobState`.
-/

namespace QueueCtl

/-- The four resting states a stored job can be in (`state` TEXT column). -/
inductive JobState where
  | pending
  | processing
  | completed
  | dead
deriving DecidableEq, Repr

/-- A row of the `jobs` table / a `Job` object (`job.py`, `Job.__init__`).
Fields keep the source's names. -/
structure Job where
  id : String
  command : String
  state : JobState
  attempts : Nat
  max_retries : Nat
  created_at : Nat
  updated_at : Nat
  retry_after_time : Option Nat
deriving DecidableEq, Repr

/-- The `jobs` table: rows in rowid (insertion) order. -/
abbrev Store := List Job

/-- Eligibility test of `pick_job_for_worker`'s SELECT (`storage.py`):
`state = 'pending' AND (retry_after_time IS NULL OR retry_after_time <= now)`. -/
def isEligible (now : Nat) (j : Job) : Bool :=
  j.state == JobState.pending &&
    (match j.retry_after_time with
     | none => true
     | some t => decide (t ≤ now))

/-- The SELECT of `pick_job_for_worker`: first row (in rowid order) among the
eligible ones whose `created_at` is minimal, i.e. the row produced by
`ORDER BY created_at ASC LIMIT 1`. -/
def selectEligible (s : Store) (now : Nat) : Option Job :=
  match s with
  | [] => none
  | j :: rest =>
    let r := selectEligible rest now
    if isEligible now j then
      match r with
      | none => some j
      | some k => if j.created_at ≤ k.created_at then some j else some k
    else r

/-- `storage.enqueue_job` (`INSERT OR IGNORE` keyed on the `id` PRIMARY KEY):
if a row with the same id exists, `rowcount = 0`, the store is untouched and a
failure outcome with a reason is returned; otherwise the row is inserted and a
success outcome is returned. -/
def enqueue_job (s : Store) (j : Job) : (Bool × String) × Store :=
  if s.any (fun k => k.id == j.id) then
    ((false, "Job with ID " ++ j.id ++ " already exists."), s)
  else
    ((true, "Job " ++ j.id ++ " added to queue in pending state."), s ++ [j])

/-- `storage.pick_job_for_worker`: select the oldest eligible pending row; if
one is found, UPDATE that row's `state` to processing and refresh its
`updated_at` (`SET state = ?, updated_at = ? WHERE id = ?` — note: only those
two columns), and return the in-memory job with the same two fields changed.
If no row qualifies the store is unchanged and `none` is returned; the
except-branches of the source likewise return `None` after a rollback, so no
error reaches the caller. -/
def pick_job_for_worker (s : Store) (now : Nat) : Option Job × Store :=
  match selectEligible s now with
  | none => (none, s)
  | some j =>
    (some { j with state := JobState.processing, updated_at := now },
     s.map (fun k =>
       if k.id = j.id then { k with state := JobState.processing, updated_at := now }
       else k))

/-- `storage.update_job_state`: refresh `updated_at` to now, then
`UPDATE jobs SET state, attempts, updated_at, retry_after_time WHERE id = ?`.
Rows whose id differs are untouched; a row with the job's id keeps its own
id, command, max_retries and created_at columns. The source returns `None`
unconditionally (an UPDATE matching zero rows is not an error). -/
def update_job_state (s : Store) (j : Job) (now : Nat) : Store :=
  s.map (fun k =>
    if k.id = j.id then
      { k with state := j.state, attempts := j.attempts,
               updated_at := now, retry_after_time := j.retry_after_time }
    else k)

/-- `storage.get_job_by_id`: `SELECT * FROM jobs WHERE id = ?` then
`fetchone()` — the first row (in rowid order) with the given id. -/
def get_job_by_id (s : Store) (i : String) : Option Job :=
  s.find? (fun k => k.id == i)

/-- `Worker.handle_success` (`worker.py`), on the in-memory job: set state to
completed and clear retry_after_time (the subsequent `update_job_state` call
persists it). -/
def handle_success_job (j : Job) : Job :=
  { j with state := JobState.completed, retry_after_time := none }

/-- `Worker.handle_failure` (`worker.py`), on the in-memory job: increment
attempts; if the incremented count has reached max_retries, go to dead with
retry_after_time cleared; otherwise go back to pending with
retry_after_time = now + retry_base ^ attempts (attempts AFTER the
increment; `delay = math.pow(self.retry_base, job.attempts)`, exact on the
integer bases used). The `execution_error` keyword of the source is ignored
by the source itself. -/
def handle_failure_job (base : Nat) (j : Job) (now : Nat) : Job :=
  let a := j.attempts + 1
  if j.max_retries ≤ a then
    { j with attempts := a, state := JobState.dead, retry_after_time := none }
  else
    { j with attempts := a, state := JobState.pending,
             retry_after_time := some (now + base ^ a) }

/-- Outcome of `subprocess.run(job.command, shell=True, check=False, ...)` as
observed by `Worker.process_job`: either the command ran and exited with a
status code, or launching/executing it raised an exception. -/
inductive ExecResult where
  | exited (code : Int)
  | launchFailure
deriving DecidableEq, Repr

/-- `Worker.process_job` (`worker.py`), the result-classification step: on
`result.returncode == 0` run `handle_success`, on any other return code run
`handle_failure`, and on any exception run `handle_failure(execution_error=True)`
— which behaves identically, as `handle_failure` never reads its kwargs. -/
def process_job (base : Nat) (j : Job) (now : Nat) (r : ExecResult) : Job :=
  match r with
  | ExecResult.exited code =>
      if code = 0 then handle_success_job j else handle_failure_job base j now
  | ExecResult.launchFailure => handle_failure_job base j now

/-- The `dlq retry` CLI command (`cli.py`, function `retry`): look the job up
by id; if absent, or present but not dead, report an error and touch nothing;
otherwise set state=pending, attempts=0, retry_after_time=None on the fetched
job and persist through `update_job_state`. Returns (new store, success flag,
echoed message). -/
def dlq_retry (s : Store) (job_id : String) (now : Nat) : Store × Bool × String :=
  match get_job_by_id s job_id with
  | none => (s, false, "Error: Job ID " ++ job_id ++ " not found.")
  | some j =>
    if j.state ≠ JobState.dead then
      (s, false, "Error: Job " ++ job_id ++ " is not in the dead state.")
    else
      (update_job_state s
        { j with state := JobState.pending, attempts := 0, retry_after_time := none } now,
       true,
       "Job " ++ job_id ++ " moved from DLQ to pending queue for retry.")

/-- The dictionary produced by `Job.to_dict` (`job.py`), which is the job's
`__dict__`, and equally the shape of a `sqlite3.Row` of the `jobs` table:
all eight fields, keyed by name. -/
structure RowData where
  id : String
  command : String
  max_retries : Nat
  state : JobState
  attempts : Nat
  created_at : Nat
  updated_at : Nat
  retry_after_time : Option Nat
deriving DecidableEq, Repr

/-- `Job.to_dict`: returns `self.__dict__`, i.e. every field under its name. -/
def to_dict (j : Job) : RowData :=
  { id := j.id, command := j.command, max_retries := j.max_retries,
    state := j.state, attempts := j.attempts, created_at := j.created_at,
    updated_at := j.updated_at, retry_after_time := j.retry_after_time }

/-- `storage.row_to_job`: pops `id` and `command` out of the row dict and
calls `Job(job_id, command, **data)`; the remaining keys bind `max_retries`
and, through `kwargs.get`, `state`, `attempts`, `created_at`, `updated_at`
and `retry_after_time`, so every stored column lands in the matching field. -/
def row_to_job (d : RowData) : Job :=
  { id := d.id, command := d.command, max_retries := d.max_retries,
    state := d.state, attempts := d.attempts, created_at := d.created_at,
    updated_at := d.updated_at, retry_after_time := d.retry_after_time }

/-- `Job.from_dict` (`job.py`): `cls(data['id'], data['command'], **data)`.
Because `data` is a `to_dict`/row dictionary it always still contains the
keys `id` and `command`, which are also passed positionally, so Python raises
`TypeError: __init__() got multiple values for argument 'id'` before the
constructor body runs — the very defect the comment on `storage.row_to_job`
documents fixing (by popping the two keys first). `from_dict` never pops
them, hence it errors on every `RowData`. -/
def from_dict (_d : RowData) : Except String Job :=
  Except.error "TypeError: __init__() got multiple values for argument id"

/-- Transitions of the store reachable through the public operations.
A worker's in-memory copy of a claimed job coincides with the stored row
(claiming writes the same state/updated_at to both), and under the claim
discipline no other operation touches a processing row, so the success and
failure completions re-read the row by id instead of threading the worker's
copy. `enqueue` carries the shape the CLI gives a fresh job (state pending,
attempts 0, no retry_after_time) plus the max_retries ≥ 1 premise of the
claim under scrutiny. -/
inductive Step : Store → Store → Prop where
  | enqueue (s : Store) (j : Job)
      (hst : j.state = JobState.pending) (hat : j.attempts = 0)
      (hrt : j.retry_after_time = none) (hmr : 1 ≤ j.max_retries) :
      Step s (enqueue_job s j).2
  | claim (s : Store) (now : Nat) :
      Step s (pick_job_for_worker s now).2
  | finishSuccess (s : Store) (i : String) (now : Nat) (j : Job)
      (hj : get_job_by_id s i = some j) (hp : j.state = JobState.processing) :
      Step s (update_job_state s (handle_success_job j) now)
  | finishFailure (s : Store) (i : String) (now base : Nat) (j : Job)
      (hj : get_job_by_id s i = some j) (hp : j.state = JobState.processing) :
      Step s (update_job_state s (handle_failure_job base j now) now)
  | adminRetry (s : Store) (i : String) (now : Nat) :
      Step s (dlq_retry s i now).1

/-- Stores reachable from the empty table through the public operations. -/
inductive Reachable : Store → Prop where
  | nil : Reachable []
  | step {s s2 : Store} : Reachable s → Step s s2 → Reachable s2

/-- Per-row invariant: max_retries is at least 1, a dead row has used exactly
its retry budget, and a live row still has budget left. -/
def JobInv (j : Job) : Prop :=
  1 ≤ j.max_retries ∧
  (j.state = JobState.dead → j.attempts = j.max_retries) ∧
  (j.state ≠ JobState.dead → j.attempts < j.max_retries)

/-- Store invariant: every row satisfies `JobInv` and ids are pairwise
distinct (the `id` column is the PRIMARY KEY). -/
def StoreInv (s : Store) : Prop :=
  (∀ j ∈ s, JobInv j) ∧ s.Pairwise (fun a b => a.id ≠ b.id)

/-! ### Concrete sample rows, used to instantiate theorems -/

/-- A pending job whose retry_after_time lies strictly in the future of the
sample clock value 5. -/
def futureRetryJob : Job :=
  { id := "c", command := "x", state := JobState.pending, attempts := 0,
    max_retries := 3, created_at := 0, updated_at := 0, retry_after_time := some 99 }

/-- A pending job carrying a backoff timestamp already reached at clock 10. -/
def backoffDueJob : Job :=
  { id := "a", command := "x", state := JobState.pending, attempts := 1,
    max_retries := 3, created_at := 2, updated_at := 0, retry_after_time := some 5 }

/-- A fresh pending job as the CLI enqueues it. -/
def freshJob : Job :=
  { id := "b", command := "x", state := JobState.pending, attempts := 0,
    max_retries := 3, created_at := 1, updated_at := 0, retry_after_time := none }

/-- A job parked in the dead-letter queue. -/
def deadJob : Job :=
  { id := "d", command := "x", state := JobState.dead, attempts := 3,
    max_retries := 3, created_at := 0, updated_at := 4, retry_after_time := none }

/-- A pending job with enough retry budget left for several failures. -/
def retryRichJob : Job :=
  { id := "r", command := "x", state := JobState.pending, attempts := 0,
    max_retries := 5, created_at := 0, updated_at := 0, retry_after_time := none }

/-! ### Lemmas about the claim query -/

lemma isEligible_iff (now : Nat) (j : Job) :
    isEligible now j = true ↔
      (j.state = JobState.pending ∧ ∀ t, j.retry_after_time = some t → t ≤ now) := by
  cases hrt : j.retry_after_time with
  | none => simp [isEligible, hrt]
  | some t => simp [isEligible, hrt]

lemma selectEligible_eq_none (s : Store) (now : Nat) :
    selectEligible s now = none ↔ ∀ k ∈ s, isEligible now k = false := by
  induction s with
  | nil => simp [selectEligible]
  | cons a rest ih =>
    by_cases ha : isEligible now a
    · simp only [selectEligible, if_pos ha]
      cases hr : selectEligible rest now with
      | none => simp [ha]
      | some b =>
        simp only [ha]
        constructor
        · intro h
          exact absurd h (by split <;> simp)
        · intro hall
          exact absurd ha (by simp [hall a (List.mem_cons_self a rest)])
    · simp only [selectEligible, if_neg ha]
      simp only [Bool.not_eq_true] at ha
      simp [ha, ih]

lemma selectEligible_eq_some (s : Store) (now : Nat) (j : Job)
    (h : selectEligible s now = some j) :
    j ∈ s ∧ isEligible now j = true ∧
      ∀ k ∈ s, isEligible now k = true → j.created_at ≤ k.created_at := by
  induction s generalizing j with
  | nil => simp [selectEligible] at h
  | cons a rest ih =>
    by_cases ha : isEligible now a
    · simp only [selectEligible, if_pos ha] at h
      cases hr : selectEligible rest now with
      | none =>
        rw [hr] at h
        cases h
        refine ⟨List.mem_cons_self _ _, ha, ?_⟩
        intro k hk hke
        rcases List.mem_cons.mp hk with hk | hk
        · exact hk ▸ Nat.le_refl _
        · exact absurd hke (by simp [(selectEligible_eq_none rest now).mp hr k hk])
      | some b =>
        rw [hr] at h
        have h2 : (if a.created_at ≤ b.created_at then some a else some b) = some j := h
        obtain ⟨hbm, hbe, hbmin⟩ := ih b hr
        by_cases hab : a.created_at ≤ b.created_at
        · rw [if_pos hab] at h2
          cases h2
          refine ⟨List.mem_cons_self _ _, ha, ?_⟩
          intro k hk hke
          rcases List.mem_cons.mp hk with hk | hk
          · exact hk ▸ Nat.le_refl _
          · exact Nat.le_trans hab (hbmin k hk hke)
        · rw [if_neg hab] at h2
          cases h2
          refine ⟨List.mem_cons_of_mem _ hbm, hbe, ?_⟩
          intro k hk hke
          rcases List.mem_cons.mp hk with hk | hk
          · exact hk ▸ le_of_not_le hab
          · exact hbmin k hk hke
    · simp only [selectEligible, if_neg ha] at h
      obtain ⟨hm, he, hmin⟩ := ih j h
      refine ⟨List.mem_cons_of_mem _ hm, he, ?_⟩
      intro k hk hke
      rcases List.mem_cons.mp hk with hk | hk
      · exact absurd hke (hk ▸ ha)
      · exact hmin k hk hke

lemma update_job_state_length (s : Store) (j : Job) (now : Nat) :
    (update_job_state s j now).length = s.length := by
  simp [update_job_state]

lemma update_job_state_getElem (s : Store) (j : Job) (now : Nat) (i : Nat) (k : Job)
    (hk : s[i]? = some k) :
    (update_job_state s j now)[i]? =
      some (if k.id = j.id then { k with state := j.state, attempts := j.attempts, updated_at := now, retry_after_time := j.retry_after_time } else k) := by
  simp [update_job_state, List.getElem?_map, hk]

lemma get_job_by_id_eq_some {s : Store} {i : String} {j : Job}
    (h : get_job_by_id s i = some j) : j ∈ s ∧ j.id = i :=
  ⟨List.mem_of_find?_eq_some h, by simpa using List.find?_some h⟩

/-- C1: `pick_job_for_worker` returns a job exactly when an eligible job
exists — eligible meaning state pending and retry_after_time unset or at most
now (equality counts; a strictly future one never qualifies, as the first
conjunct spells out) — and the returned job is an eligible row of minimal
created_at, rewritten to processing in the store; when nothing is eligible it
returns none and leaves the store unchanged. -/
theorem claim_next_correct (s : Store) (now : Nat) :
    (∀ j : Job, isEligible now j = true ↔
        (j.state = JobState.pending ∧ ∀ t, j.retry_after_time = some t → t ≤ now)) ∧
    (∀ j, (pick_job_for_worker s now).1 = some j →
      ∃ j0, j0 ∈ s ∧ isEligible now j0 = true ∧
        (∀ k ∈ s, isEligible now k = true → j0.created_at ≤ k.created_at) ∧
        j = { j0 with state := JobState.processing, updated_at := now } ∧
        (pick_job_for_worker s now).2 =
          s.map (fun k =>
            if k.id = j0.id then { k with state := JobState.processing, updated_at := now }
            else k)) ∧
    ((pick_job_for_worker s now).1 = none →
      (∀ k ∈ s, isEligible now k = false) ∧ (pick_job_for_worker s now).2 = s) ∧
    ((∃ k ∈ s, isEligible now k = true) → (pick_job_for_worker s now).1 ≠ none) := by
  refine ⟨fun j => isEligible_iff now j, ?_, ?_, ?_⟩
  · intro j hj
    cases hsel : selectEligible s now with
    | none => rw [pick_job_for_worker, hsel] at hj; exact absurd hj (by simp)
    | some j0 =>
      obtain ⟨hm, he, hmin⟩ := selectEligible_eq_some s now j0 hsel
      refine ⟨j0, hm, he, hmin, ?_, ?_⟩
      · rw [pick_job_for_worker, hsel] at hj
        exact (Option.some.injEq _ _ ▸ hj).symm
      · rw [pick_job_for_worker, hsel]
  · intro hnone
    cases hsel : selectEligible s now with
    | none =>
      refine ⟨(selectEligible_eq_none s now).mp hsel, ?_⟩
      rw [pick_job_for_worker, hsel]
    | some j0 => rw [pick_job_for_worker, hsel] at hnone; exact absurd hnone (by simp)
  · rintro ⟨k, hk, hke⟩ hnone
    cases hsel : selectEligible s now with
    | none => exact absurd hke (by simp [(selectEligible_eq_none s now).mp hsel k hk])
    | some j0 => rw [pick_job_for_worker, hsel] at hnone; exact absurd hnone (by simp)

/-- Witness for C1: a store holding one pending job whose retry_after_time is
strictly in the future yields no claim and an unchanged store. -/
theorem claim_next_correct_witness :
    isEligible 5 futureRetryJob = false ∧
    (pick_job_for_worker [futureRetryJob] 5).2 = [futureRetryJob] := by
  have h := (claim_next_correct [futureRetryJob] 5).2.2.1 rfl
  exact ⟨h.1 _ (List.mem_singleton_self _), h.2⟩

/-- C2: when a failure leaves the incremented attempt count below max_retries,
`handle_failure` moves the job back to pending and schedules it at
now + retry_base ^ attempts, with attempts counted after the increment (the
first failure uses exponent 1). -/
theorem handle_failure_backoff (base : Nat) (j : Job) (now : Nat)
    (h : j.attempts + 1 < j.max_retries) :
    (handle_failure_job base j now).state = JobState.pending ∧
    (handle_failure_job base j now).attempts = j.attempts + 1 ∧
    (handle_failure_job base j now).retry_after_time =
      some (now + base ^ (j.attempts + 1)) := by
  have hnot : ¬ j.max_retries ≤ j.attempts + 1 := Nat.not_le_of_lt h
  simp [handle_failure_job, hnot]

/-- Witness for C2: with retry_base 2, the first, second and third failures of
a job schedule it 2, 4 and 8 seconds after the failure instant. -/
theorem handle_failure_backoff_witness :
    (handle_failure_job 2 retryRichJob 100).retry_after_time = some 102 ∧
    (handle_failure_job 2 { retryRichJob with attempts := 1 } 100).retry_after_time = some 104 ∧
    (handle_failure_job 2 { retryRichJob with attempts := 2 } 100).retry_after_time = some 108 := by
  have h1 := handle_failure_backoff 2 retryRichJob 100 (by decide)
  have h2 := handle_failure_backoff 2 { retryRichJob with attempts := 1 } 100 (by decide)
  have h3 := handle_failure_backoff 2 { retryRichJob with attempts := 2 } 100 (by decide)
  refine ⟨?_, ?_, ?_⟩
  · rw [h1.2.2]; decide
  · rw [h2.2.2]; decide
  · rw [h3.2.2]; decide

/-- C7: `process_job` runs the success handler exactly when the command exited
with status 0; every non-zero exit status and a failure to launch at all take
the identical failure path. -/
theorem process_job_classification (base : Nat) (j : Job) (now : Nat) :
    (∀ r : ExecResult,
      process_job base j now r = handle_success_job j ↔ r = ExecResult.exited 0) ∧
    (∀ c : Int, c ≠ 0 →
      process_job base j now (ExecResult.exited c) =
        process_job base j now ExecResult.launchFailure) := by
  have hne : handle_failure_job base j now ≠ handle_success_job j := by
    intro hEq
    have hst := congrArg Job.state hEq
    unfold handle_failure_job handle_success_job at hst
    by_cases hd : j.max_retries ≤ j.attempts + 1 <;> simp [hd] at hst
  constructor
  · intro r
    cases r with
    | exited c =>
      by_cases hc : c = 0
      · subst hc; simp [process_job]
      · simp only [process_job, if_neg hc]
        constructor
        · intro hEq; exact absurd hEq hne
        · intro hEq; exact absurd (ExecResult.exited.injEq _ _ ▸ hEq) hc
      | launchFailure =>
        simp only [process_job]
        constructor
        · intro hEq; exact absurd hEq hne
        · intro hEq; exact absurd hEq (by simp)
  · intro c hc
    simp [process_job, if_neg hc]

/-- Witness for C7: exit status 7 and a launch failure produce the same
updated job, and exit status 0 produces the success handler's job. -/
theorem process_job_classification_witness :
    process_job 2 freshJob 100 (ExecResult.exited 7) =
      process_job 2 freshJob 100 ExecResult.launchFailure ∧
    process_job 2 freshJob 100 (ExecResult.exited 0) = handle_success_job freshJob := by
  refine ⟨(process_job_classification 2 freshJob 100).2 7 (by decide), ?_⟩
  exact ((process_job_classification 2 freshJob 100).1 (ExecResult.exited 0)).mpr rfl

/-- C5: enqueue with an id already present returns a failure outcome carrying
a reason and leaves the store — in particular every existing row — exactly as
it was; enqueue with a fresh id appends the row and reports success. -/
theorem enqueue_conflict_or_insert (s : Store) (j : Job) :
    ((∃ k ∈ s, k.id = j.id) →
      (enqueue_job s j).1.1 = false ∧
      (enqueue_job s j).1.2 = "Job with ID " ++ j.id ++ " already exists." ∧
      (enqueue_job s j).2 = s) ∧
    ((∀ k ∈ s, k.id ≠ j.id) →
      (enqueue_job s j).1.1 = true ∧ (enqueue_job s j).2 = s ++ [j]) := by
  constructor
  · rintro ⟨k, hk, hid⟩
    have hany : s.any (fun k => k.id == j.id) = true :=
      List.any_eq_true.mpr ⟨k, hk, by simp [hid]⟩
    simp [enqueue_job, hany]
  · intro hall
    have hany : s.any (fun k => k.id == j.id) = false := by
      rw [Bool.eq_false_iff]
      intro habs
      obtain ⟨k, hk, hkid⟩ := List.any_eq_true.mp habs
      exact hall k hk (by simpa using hkid)
    simp [enqueue_job, hany]

/-- Witness for C5: re-enqueueing the sample fresh job on a store already
holding it fails and changes nothing; enqueueing it on the empty store
succeeds and appends it. -/
theorem enqueue_conflict_or_insert_witness :
    (enqueue_job [freshJob] freshJob).1.1 = false ∧
    (enqueue_job [freshJob] freshJob).2 = [freshJob] ∧
    (enqueue_job [] freshJob).1.1 = true ∧
    (enqueue_job [] freshJob).2 = [freshJob] := by
  have hdup := (enqueue_conflict_or_insert [freshJob] freshJob).1
    ⟨freshJob, List.mem_singleton_self _, rfl⟩
  have hnew := (enqueue_conflict_or_insert [] freshJob).2 (by simp)
  exact ⟨hdup.1, hdup.2.2, hnew.1, by simpa using hnew.2⟩

/-- C8: `update_job_state` rewrites, in the row whose id matches the given
job, only the state, attempts and retry_after_time columns plus a refreshed
updated_at; the row's id, command, max_retries and created_at and every row
with a different id are untouched, and no row is added or removed. -/
theorem update_job_state_frame (s : Store) (j : Job) (now : Nat) :
    (update_job_state s j now).length = s.length ∧
    ∀ i : Nat, ∀ k : Job, s[i]? = some k →
      ∃ k2 : Job, (update_job_state s j now)[i]? = some k2 ∧
        (k.id ≠ j.id → k2 = k) ∧
        (k.id = j.id →
          k2.id = k.id ∧ k2.command = k.command ∧ k2.max_retries = k.max_retries ∧
          k2.created_at = k.created_at ∧ k2.state = j.state ∧ k2.attempts = j.attempts ∧
          k2.retry_after_time = j.retry_after_time ∧ k2.updated_at = now) := by
  constructor
  · exact update_job_state_length s j now
  · intro i k hk
    have hg := update_job_state_getElem s j now i k hk
    by_cases hid : k.id = j.id
    · rw [if_pos hid] at hg
      exact ⟨_, hg, fun hne => absurd hid hne, fun _ => ⟨rfl, rfl, rfl, rfl, rfl, rfl, rfl, rfl⟩⟩
    · rw [if_neg hid] at hg
      exact ⟨k, hg, fun _ => rfl, fun h => absurd h hid⟩

/-- Witness for C8: persisting the success transition of the sample fresh job
touches exactly the dedicated columns of its single row. -/
theorem update_job_state_frame_witness :
    (update_job_state [freshJob] (handle_success_job freshJob) 9).length = 1 ∧
    (update_job_state [freshJob, deadJob] (handle_success_job freshJob) 9)[1]? =
      some deadJob := by
  constructor
  · have h := update_job_state_frame [freshJob] (handle_success_job freshJob) 9
    simpa using h.1
  · have h := update_job_state_frame [freshJob, deadJob] (handle_success_job freshJob) 9
    obtain ⟨k2, hk2, hne, _⟩ := h.2 1 deadJob rfl
    rw [hk2, hne (by decide)]

/-- C9: `update_job_state` on a job whose id matches no stored row leaves the
store exactly as it was; the source returns `None` without raising, so the
caller sees no error. -/
theorem update_job_state_missing_id_noop (s : Store) (j : Job) (now : Nat)
    (h : ∀ k ∈ s, k.id ≠ j.id) :
    update_job_state s j now = s := by
  induction s with
  | nil => rfl
  | cons a rest ih =>
    have ha : ¬ a.id = j.id := h a (List.mem_cons_self a rest)
    have hrest : update_job_state rest j now = rest :=
      ih (fun k hk => h k (List.mem_cons_of_mem _ hk))
    simp only [update_job_state, List.map_cons, if_neg ha]
    exact congrArg (List.cons a) hrest

/-- Witness for C9: updating with a job of unknown id "d" leaves the
single-row store untouched. -/
theorem update_job_state_missing_id_noop_witness :
    update_job_state [freshJob] deadJob 9 = [freshJob] :=
  update_job_state_missing_id_noop [freshJob] deadJob 9
    (by intro k hk; rw [List.mem_singleton.mp hk]; decide)

/-- C6: `dlq retry` on an unknown id or a non-dead job reports an error and
mutates nothing; on a dead job it reports success and rewrites the matching
row to state pending, attempts 0 and no retry_after_time, keeping the row's
id, command, max_retries and created_at and every other row untouched. -/
theorem dlq_retry_spec (s : Store) (i : String) (now : Nat) :
    (get_job_by_id s i = none →
      dlq_retry s i now = (s, false, "Error: Job ID " ++ i ++ " not found.")) ∧
    (∀ j, get_job_by_id s i = some j → j.state ≠ JobState.dead →
      (dlq_retry s i now).1 = s ∧ (dlq_retry s i now).2.1 = false) ∧
    (∀ j, get_job_by_id s i = some j → j.state = JobState.dead →
      (dlq_retry s i now).2.1 = true ∧
      (dlq_retry s i now).1.length = s.length ∧
      ∀ idx : Nat, ∀ k : Job, s[idx]? = some k →
        ∃ k2 : Job, (dlq_retry s i now).1[idx]? = some k2 ∧
          (k.id ≠ i → k2 = k) ∧
          (k.id = i →
            k2.state = JobState.pending ∧ k2.attempts = 0 ∧
            k2.retry_after_time = none ∧ k2.updated_at = now ∧ k2.id = k.id ∧
            k2.command = k.command ∧ k2.max_retries = k.max_retries ∧
            k2.created_at = k.created_at)) := by
  refine ⟨?_, ?_, ?_⟩
  · intro h
    simp [dlq_retry, h]
  · intro j hj hnd
    simp only [dlq_retry, hj]
    rw [if_pos hnd]
    exact ⟨rfl, rfl⟩
  · intro j hj hd
    have hjid : j.id = i := (get_job_by_id_eq_some hj).2
    have hnd : ¬ j.state ≠ JobState.dead := by simp [hd]
    simp only [dlq_retry, hj]
    rw [if_neg hnd]
    refine ⟨rfl, update_job_state_length _ _ _, ?_⟩
    intro idx k hk
    have hg := update_job_state_getElem s
      { j with state := JobState.pending, attempts := 0, retry_after_time := none } now idx k hk
    by_cases hkid : k.id = i
    · rw [if_pos (by simpa [hjid] using hkid)] at hg
      exact ⟨_, hg, fun hne => absurd hkid hne,
        fun _ => ⟨rfl, rfl, rfl, rfl, rfl, rfl, rfl, rfl⟩⟩
    · rw [if_neg (by simpa [hjid] using hkid)] at hg
      exact ⟨k, hg, fun _ => rfl, fun h => absurd h hkid⟩

/-- Witness for C6: retrying a pending job is rejected without mutation;
retrying the sample dead job succeeds and resets its row. -/
theorem dlq_retry_spec_witness :
    (dlq_retry [freshJob] "b" 9).1 = [freshJob] ∧
    (dlq_retry [freshJob] "b" 9).2.1 = false ∧
    (dlq_retry [deadJob] "d" 9).2.1 = true ∧
    (dlq_retry [deadJob] "d" 9).1 =
      [{ id := "d", command := "x", state := JobState.pending, attempts := 0, max_retries := 3, created_at := 0, updated_at := 9, retry_after_time := none }] := by
  have hrej := (dlq_retry_spec [freshJob] "b" 9).2.1 freshJob rfl (by decide)
  have hok := (dlq_retry_spec [deadJob] "d" 9).2.2 deadJob rfl rfl
  exact ⟨hrej.1, hrej.2, hok.1, by decide⟩

/-- Counterexample for C4 as stated: claiming a pending job whose
retry_after_time has come due leaves that timestamp in the stored, now
processing, row — the claim transition does not clear it. -/
theorem retry_time_cleared_on_claim_cex :
    (pick_job_for_worker [backoffDueJob] 10).2.map Job.state = [JobState.processing] ∧
    (pick_job_for_worker [backoffDueJob] 10).2.map Job.retry_after_time = [some 5] := by
  decide

/-- C4 (amended): retry_after_time is set only by the failure handler when it
sends a job back to pending, and is cleared by the transitions to completed
and dead; the claim transition to processing, however, leaves every stored
retry_after_time exactly as it was. -/
theorem retry_time_lifecycle (base : Nat) (j : Job) (now : Nat) :
    (handle_success_job j).retry_after_time = none ∧
    (j.max_retries ≤ j.attempts + 1 →
      (handle_failure_job base j now).state = JobState.dead ∧
      (handle_failure_job base j now).retry_after_time = none) ∧
    (j.attempts + 1 < j.max_retries →
      (handle_failure_job base j now).state = JobState.pending ∧
      (handle_failure_job base j now).retry_after_time = some (now + base ^ (j.attempts + 1))) ∧
    (∀ s : Store, (pick_job_for_worker s now).2.map Job.retry_after_time =
      s.map Job.retry_after_time) := by
  refine ⟨rfl, ?_, ?_, ?_⟩
  · intro hth
    simp [handle_failure_job, hth]
  · intro hlt
    have hnot : ¬ j.max_retries ≤ j.attempts + 1 := Nat.not_le_of_lt hlt
    simp [handle_failure_job, hnot]
  · intro s
    cases hsel : selectEligible s now with
    | none => rw [pick_job_for_worker, hsel]
    | some j0 =>
      rw [pick_job_for_worker, hsel]
      simp only [List.map_map]
      refine List.map_congr_left ?_
      intro k _
      by_cases hk : k.id = j0.id <;> simp [hk]

/-- Witness for C4 (amended): with base 2 at clock 10, a third failure of the
sample job kills it and clears the timestamp, while its second failure
reschedules it for clock 14. -/
theorem retry_time_lifecycle_witness :
    (handle_failure_job 2 { backoffDueJob with attempts := 2 } 10).retry_after_time = none ∧
    (handle_failure_job 2 backoffDueJob 10).retry_after_time = some 14 := by
  have hdead := (retry_time_lifecycle 2 { backoffDueJob with attempts := 2 } 10).2.1 (by decide)
  have hpend := (retry_time_lifecycle 2 backoffDueJob 10).2.2.1 (by decide)
  refine ⟨hdead.2, ?_⟩
  rw [hpend.2]; decide

/-- C10: converting a Job through `to_dict` and back through `row_to_job`
restores every one of the eight fields; `Job.from_dict`, however, is NOT an
equivalent path: on every `to_dict` output it raises
`TypeError: __init__() got multiple values for argument 'id'`, because it
passes id and command both positionally and inside `**data` — the defect the
comment on `storage.row_to_job` documents having to work around. -/
theorem to_dict_roundtrip (j : Job) :
    row_to_job (to_dict j) = j ∧
    from_dict (to_dict j) =
      Except.error "TypeError: __init__() got multiple values for argument id" :=
  ⟨rfl, rfl⟩

/-! ### Reachability invariant: retry budget and the dead state -/

lemma pairwise_id_unique (s : Store) :
    s.Pairwise (fun a b => a.id ≠ b.id) →
    ∀ a b : Job, a ∈ s → b ∈ s → a.id = b.id → a = b := by
  induction s with
  | nil => intro _ a b ha _ _; exact absurd ha (List.not_mem_nil a)
  | cons x rest ih =>
    intro hp a b ha hb hid
    rcases List.pairwise_cons.mp hp with ⟨hx, hrest⟩
    rcases List.mem_cons.mp ha with ha1 | ha1 <;> rcases List.mem_cons.mp hb with hb1 | hb1
    · exact ha1.trans hb1.symm
    · subst ha1; exact absurd hid (hx b hb1)
    · subst hb1; exact absurd hid.symm (hx a ha1)
    · exact ih hrest a b ha1 hb1 hid

lemma mem_update_job_state {s : Store} {j2 : Job} {now : Nat} {k2 : Job}
    (h : k2 ∈ update_job_state s j2 now) :
    ∃ k ∈ s,
      (k.id = j2.id ∧ k2 = { k with state := j2.state, attempts := j2.attempts, updated_at := now, retry_after_time := j2.retry_after_time }) ∨
      (k.id ≠ j2.id ∧ k2 = k) := by
  obtain ⟨k, hk, hfk⟩ := List.mem_map.mp h
  by_cases hkid : k.id = j2.id
  · exact ⟨k, hk, Or.inl ⟨hkid, by rw [← hfk, if_pos hkid]⟩⟩
  · exact ⟨k, hk, Or.inr ⟨hkid, by rw [← hfk, if_neg hkid]⟩⟩

lemma update_job_state_pairwise_id (s : Store) (j2 : Job) (now : Nat)
    (hP : s.Pairwise (fun a b => a.id ≠ b.id)) :
    (update_job_state s j2 now).Pairwise (fun a b => a.id ≠ b.id) := by
  refine List.Pairwise.map _ ?_ hP
  intro a b hab
  dsimp only
  by_cases ha2 : a.id = j2.id
  · by_cases hb2 : b.id = j2.id
    · exact absurd (ha2.trans hb2.symm) hab
    · rw [if_pos ha2, if_neg hb2]
      exact hab
  · by_cases hb2 : b.id = j2.id
    · rw [if_neg ha2, if_pos hb2]
      exact hab
    · rw [if_neg ha2, if_neg hb2]
      exact hab

lemma handle_failure_job_id (base : Nat) (j : Job) (now : Nat) :
    (handle_failure_job base j now).id = j.id := by
  simp only [handle_failure_job]
  split <;> rfl

lemma storeInv_update {s : Store} (hJ : ∀ k ∈ s, JobInv k)
    (hP : s.Pairwise (fun a b => a.id ≠ b.id)) (j2 : Job) (now : Nat)
    (hgood : ∀ k ∈ s, k.id = j2.id →
      (j2.state = JobState.dead → j2.attempts = k.max_retries) ∧
      (j2.state ≠ JobState.dead → j2.attempts < k.max_retries)) :
    StoreInv (update_job_state s j2 now) := by
  constructor
  · intro k2 hk2
    obtain ⟨k, hk, hcase⟩ := mem_update_job_state hk2
    rcases hcase with ⟨hkid, hkeq⟩ | ⟨hkid, hkeq⟩
    · obtain ⟨hmr0, _, _⟩ := hJ k hk
      obtain ⟨hdeadc, hlivec⟩ := hgood k hk hkid
      rw [hkeq]
      exact ⟨hmr0, hdeadc, hlivec⟩
    · rw [hkeq]
      exact hJ k hk
  · exact update_job_state_pairwise_id s j2 now hP

lemma storeInv_step {s s2 : Store} (hinv : StoreInv s) (hstep : Step s s2) :
    StoreInv s2 := by
  obtain ⟨hJ, hP⟩ := hinv
  cases hstep with
  | enqueue j hst hat hrt hmr =>
    by_cases hdup : s.any (fun k => k.id == j.id) = true
    · simp only [enqueue_job, if_pos hdup]
      exact ⟨hJ, hP⟩
    · simp only [enqueue_job, if_neg hdup]
      constructor
      · intro k hk
        rcases List.mem_append.mp hk with hk | hk
        · exact hJ k hk
        · rcases List.mem_singleton.mp hk with rfl
          refine ⟨hmr, ?_, ?_⟩
          · intro hd; rw [hst] at hd; exact absurd hd (by decide)
          · intro _; rw [hat]; exact hmr
      · rw [List.pairwise_append]
        refine ⟨hP, by simp, ?_⟩
        intro a ha b hb
        rcases List.mem_singleton.mp hb with rfl
        intro hab
        exact hdup (List.any_eq_true.mpr ⟨a, ha, by simp [hab]⟩)
  | claim now =>
    cases hsel : selectEligible s now with
    | none =>
      rw [pick_job_for_worker, hsel]
      exact ⟨hJ, hP⟩
    | some j0 =>
      rw [pick_job_for_worker, hsel]
      obtain ⟨hm, he, _⟩ := selectEligible_eq_some s now j0 hsel
      have hpend : j0.state = JobState.pending := ((isEligible_iff now j0).mp he).1
      constructor
      · intro k2 hk2
        obtain ⟨k, hk, hfk⟩ := List.mem_map.mp hk2
        by_cases hkid : k.id = j0.id
        · have hkj : k = j0 := pairwise_id_unique s hP k j0 hk hm hkid
          rw [if_pos hkid] at hfk
          subst hfk
          obtain ⟨hmr0, _, hlive⟩ := hJ k hk
          refine ⟨hmr0, ?_, ?_⟩
          · intro hd; simp at hd
          · intro _; exact hlive (by rw [hkj, hpend]; decide)
        · rw [if_neg hkid] at hfk
          subst hfk
          exact hJ k hk
      · refine List.Pairwise.map _ ?_ hP
        intro a b hab
        dsimp only
        by_cases ha2 : a.id = j0.id
        · by_cases hb2 : b.id = j0.id
          · exact absurd (ha2.trans hb2.symm) hab
          · rw [if_pos ha2, if_neg hb2]
            exact hab
        · by_cases hb2 : b.id = j0.id
          · rw [if_neg ha2, if_pos hb2]
            exact hab
          · rw [if_neg ha2, if_neg hb2]
            exact hab
  | finishSuccess i now j hj hpr =>
    obtain ⟨hmem, _⟩ := get_job_by_id_eq_some hj
    refine storeInv_update hJ hP _ now ?_
    intro k hk hkid
    have hkj : k = j := pairwise_id_unique s hP k j hk hmem hkid
    obtain ⟨_, _, hlive⟩ := hJ j hmem
    constructor
    · intro hd; simp [handle_success_job] at hd
    · intro _
      have : j.attempts < j.max_retries := hlive (by rw [hpr]; decide)
      rw [hkj]
      exact this
  | finishFailure i now base j hj hpr =>
    obtain ⟨hmem, _⟩ := get_job_by_id_eq_some hj
    have hjlt : j.attempts < j.max_retries := by
      obtain ⟨_, _, hlive⟩ := hJ j hmem
      exact hlive (by rw [hpr]; decide)
    refine storeInv_update hJ hP _ now ?_
    intro k hk hkid
    have hkj : k = j := pairwise_id_unique s hP k j hk hmem
      (hkid.trans (handle_failure_job_id base j now))
    rw [hkj]
    by_cases hth : j.max_retries ≤ j.attempts + 1
    · have hstate : (handle_failure_job base j now).state = JobState.dead := by
        simp [handle_failure_job, hth]
      have hatt : (handle_failure_job base j now).attempts = j.attempts + 1 := by
        simp [handle_failure_job, hth]
      constructor
      · intro _
        rw [hatt]
        exact Nat.le_antisymm hjlt hth
      · intro hne
        rw [hstate] at hne
        exact absurd rfl hne
    · have hstate : (handle_failure_job base j now).state = JobState.pending := by
        simp [handle_failure_job, hth]
      have hatt : (handle_failure_job base j now).attempts = j.attempts + 1 := by
        simp [handle_failure_job, hth]
      constructor
      · intro hd
        rw [hstate] at hd
        exact absurd hd (by decide)
      · intro _
        rw [hatt]
        exact Nat.lt_of_not_le hth
  | adminRetry i now =>
    cases hget : get_job_by_id s i with
    | none =>
      simp only [dlq_retry, hget]
      exact ⟨hJ, hP⟩
    | some j =>
      by_cases hjd : j.state ≠ JobState.dead
      · simp only [dlq_retry, hget, if_pos hjd]
        exact ⟨hJ, hP⟩
      · simp only [dlq_retry, hget, if_neg hjd]
        refine storeInv_update hJ hP _ now ?_
        intro k hk _
        constructor
        · intro hd; simp at hd
        · intro _
          exact Nat.lt_of_lt_of_le Nat.zero_lt_one (hJ k hk).1

lemma reachable_storeInv {s : Store} (h : Reachable s) : StoreInv s := by
  induction h with
  | nil => exact ⟨fun j hj => absurd hj (List.not_mem_nil j), List.Pairwise.nil⟩
  | step _ hstep ih => exact storeInv_step ih hstep

lemma step_new_dead {s s2 : Store} (hstep : Step s s2)
    {k2 : Job} (hk2 : k2 ∈ s2) (hd : k2.state = JobState.dead) :
    (∃ k ∈ s, k.id = k2.id ∧ k.state = JobState.dead) ∨
    (∃ base j now, j ∈ s ∧ j.state = JobState.processing ∧
      j.max_retries ≤ j.attempts + 1 ∧
      s2 = update_job_state s (handle_failure_job base j now) now) := by
  cases hstep with
  | enqueue j hst hat hrt hmr =>
    by_cases hdup : s.any (fun k => k.id == j.id) = true
    · rw [enqueue_job, if_pos hdup] at hk2
      exact Or.inl ⟨k2, hk2, rfl, hd⟩
    · rw [enqueue_job, if_neg hdup] at hk2
      rcases List.mem_append.mp hk2 with hk | hk
      · exact Or.inl ⟨k2, hk, rfl, hd⟩
      · rcases List.mem_singleton.mp hk with rfl
        rw [hst] at hd
        exact absurd hd (by decide)
  | claim now =>
    cases hsel : selectEligible s now with
    | none =>
      rw [pick_job_for_worker, hsel] at hk2
      exact Or.inl ⟨k2, hk2, rfl, hd⟩
    | some j0 =>
      rw [pick_job_for_worker, hsel] at hk2
      obtain ⟨k, hk, hfk⟩ := List.mem_map.mp hk2
      by_cases hkid : k.id = j0.id
      · rw [if_pos hkid] at hfk
        subst hfk
        simp at hd
      · rw [if_neg hkid] at hfk
        subst hfk
        exact Or.inl ⟨k, hk, rfl, hd⟩
  | finishSuccess i now j hj hpr =>
    obtain ⟨k, hk, hcase⟩ := mem_update_job_state hk2
    rcases hcase with ⟨hkid, hkeq⟩ | ⟨hkid, hkeq⟩
    · rw [hkeq] at hd
      simp [handle_success_job] at hd
    · rw [hkeq] at hd ⊢
      exact Or.inl ⟨k, hk, rfl, hd⟩
  | finishFailure i now base j hj hpr =>
    obtain ⟨k, hk, hcase⟩ := mem_update_job_state hk2
    rcases hcase with ⟨hkid, hkeq⟩ | ⟨hkid, hkeq⟩
    · by_cases hth : j.max_retries ≤ j.attempts + 1
      · exact Or.inr ⟨base, j, now, (get_job_by_id_eq_some hj).1, hpr, hth, rfl⟩
      · have hstate : (handle_failure_job base j now).state = JobState.pending := by
          simp [handle_failure_job, hth]
        rw [hkeq] at hd
        have hd2 : (handle_failure_job base j now).state = JobState.dead := hd
        rw [hstate] at hd2
        exact absurd hd2 (by decide)
    · rw [hkeq] at hd ⊢
      exact Or.inl ⟨k, hk, rfl, hd⟩
  | adminRetry i now =>
    cases hget : get_job_by_id s i with
    | none =>
      simp only [dlq_retry, hget] at hk2
      exact Or.inl ⟨k2, hk2, rfl, hd⟩
    | some j =>
      by_cases hjd : j.state ≠ JobState.dead
      · simp only [dlq_retry, hget, if_pos hjd] at hk2
        exact Or.inl ⟨k2, hk2, rfl, hd⟩
      · simp only [dlq_retry, hget, if_neg hjd] at hk2
        obtain ⟨k, hk, hcase⟩ := mem_update_job_state hk2
        rcases hcase with ⟨hkid, hkeq⟩ | ⟨hkid, hkeq⟩
        · rw [hkeq] at hd
          simp at hd
        · rw [hkeq] at hd ⊢
          exact Or.inl ⟨k, hk, rfl, hd⟩

/-- C3: in every store reachable through enqueue (with max_retries ≥ 1),
claim, success handling, failure handling and administrative requeue, a job's
attempts never exceed its max_retries and a job is dead exactly when its
attempts have reached max_retries; moreover any step that makes a row dead
that was not dead before is a failure-handling step whose incremented attempt
count reached the threshold. -/
theorem attempts_bounded_and_dead_iff (s : Store) (h : Reachable s) :
    (∀ j ∈ s, j.attempts ≤ j.max_retries ∧
      (j.state = JobState.dead ↔ j.max_retries ≤ j.attempts)) ∧
    (∀ s2 : Store, Step s s2 → ∀ k2 ∈ s2, k2.state = JobState.dead →
      (∃ k ∈ s, k.id = k2.id ∧ k.state = JobState.dead) ∨
      (∃ base j now, j ∈ s ∧ j.state = JobState.processing ∧
        j.max_retries ≤ j.attempts + 1 ∧
        s2 = update_job_state s (handle_failure_job base j now) now)) := by
  obtain ⟨hJ, _⟩ := reachable_storeInv h
  constructor
  · intro j hj
    obtain ⟨hmr, hdead, hlive⟩ := hJ j hj
    constructor
    · by_cases hdc : j.state = JobState.dead
      · exact (hdead hdc).le
      · exact (hlive hdc).le
    · constructor
      · intro hdc; exact (hdead hdc).ge
      · intro hge
        by_cases hdc : j.state = JobState.dead
        · exact hdc
        · exact absurd hge (Nat.not_le_of_lt (hlive hdc))
  · intro s2 hstep k2 hk2 hdc
    exact step_new_dead hstep hk2 hdc

/-- Witness for C3: the store obtained by enqueueing the sample fresh job
into the empty store is reachable, and the theorem instantiates on its row. -/
theorem attempts_bounded_and_dead_iff_witness :
    freshJob.attempts ≤ freshJob.max_retries ∧
    (freshJob.state = JobState.dead ↔ freshJob.max_retries ≤ freshJob.attempts) := by
  have hr : Reachable ((enqueue_job [] freshJob).2) :=
    Reachable.step Reachable.nil (Step.enqueue [] freshJob rfl rfl rfl (by decide))
  exact (attempts_bounded_and_dead_iff _ hr).1 freshJob (by decide)

end QueueCtl
